import Mathlib

/-!
Verification development for the Liquidity-Analyzer repository
(single source file `app.py`).

The embedding models the bulk analysis engine of `analyze_liquidity_risk`:

* IEEE-754 double behaviour is modelled by `EFl α`: a finite value drawn
  from a linear ordered field `α` (instantiated at `ℚ` or `ℝ`), or one of
  the special values `inf`, `ninf` (negative infinity) and `nan`.  The
  source never produces a negative zero on the modelled paths, so a single
  zero suffices.  Arithmetic follows IEEE semantics for the operations the
  source uses (pandas/numpy float arithmetic raises no exception on
  division by zero; it yields an infinity or NaN).
* A daily bar carries the columns the source reads: High, Low, Close,
  Volume, all finite (as downloaded data).
* `analyze_single_stock` models the inner function of the same name: it
  receives the outcome of `yf.download` (a possibly-empty bar list, or a
  raised provider error, modelled by `FetchResult`), returns `none` for an
  empty series (the `if stock_data.empty: return None` branch), an
  error row from the `except` branch, and otherwise the computed result
  dictionary.  `np.log10` is passed as a parameter `lg`; theorems about
  the numeric score instantiate it with `Real.logb 10`.
* The batch loop (`for i in range(0, total_stocks, batch_size)`) with its
  `ThreadPoolExecutor` is modelled by `chunks` / `runAux` /
  `schedulerRun`.  The source joins the futures of a batch in submission
  order (`for future in futures: future.result()`), and each worker's
  result is a pure function of its symbol, so the collected sequence is
  deterministic and the pool is modelled by per-symbol evaluation.
  One progress report `(min (i + batch_size) total, total)` is recorded
  per batch, mirroring lines 136-139 of the source.
* `sort_values('Liquidity Score', ascending=False)` is modelled by
  `sortValuesDesc`.  For a descending sort pandas' `nargsort` reverses
  the non-null values and their index array, runs the ascending argsort,
  and reverses the resulting indexer again; this double reversal around
  the argsort makes the descending sort stable whenever the argsort is
  (rows with equal scores keep their encounter order), and the null-key
  rows are appended afterwards in their original order
  (`na_position='last'`).  numpy's default introsort runs insertion sort
  on the small arrays in scope and is therefore stable there; the whole
  is modelled as the canonical stable descending sort: key descending,
  ties by original position ascending.
* The display table formats through `safe_format` (printing "N/A" for
  missing values); the CSV download serializes `results_df`, the
  unformatted frame, where pandas writes missing values as empty fields.
-/

namespace LiquidityAnalyzer

/-- An IEEE-754-style extended value over a linear ordered field:
finite, positive infinity, negative infinity, or NaN. -/
inductive EFl (α : Type) where
  | fin : α → EFl α
  | inf : EFl α
  | ninf : EFl α
  | nan : EFl α
deriving DecidableEq

namespace EFl

variable {α : Type} [LinearOrderedField α]

/-- NaN test (`pd.isna` on a float). -/
def isNaN : EFl α → Bool
  | nan => true
  | _ => false

/-- IEEE negation. -/
def neg : EFl α → EFl α
  | fin x => fin (-x)
  | inf => ninf
  | ninf => inf
  | nan => nan

/-- IEEE addition. -/
def add : EFl α → EFl α → EFl α
  | nan, _ => nan
  | _, nan => nan
  | fin x, fin y => fin (x + y)
  | inf, ninf => nan
  | ninf, inf => nan
  | inf, _ => inf
  | _, inf => inf
  | ninf, _ => ninf
  | _, ninf => ninf

/-- IEEE subtraction. -/
def sub (a b : EFl α) : EFl α := a.add b.neg

/-- IEEE multiplication. -/
def mul : EFl α → EFl α → EFl α
  | nan, _ => nan
  | _, nan => nan
  | fin x, fin y => fin (x * y)
  | inf, fin y => if 0 < y then inf else if y < 0 then ninf else nan
  | fin x, inf => if 0 < x then inf else if x < 0 then ninf else nan
  | ninf, fin y => if 0 < y then ninf else if y < 0 then inf else nan
  | fin x, ninf => if 0 < x then ninf else if x < 0 then inf else nan
  | inf, inf => inf
  | ninf, ninf => inf
  | inf, ninf => ninf
  | ninf, inf => ninf

/-- IEEE division.  A nonzero finite value divided by zero yields a signed
infinity, `0 / 0` yields NaN (the dividing zero coming from market data is
a positive zero). -/
def div : EFl α → EFl α → EFl α
  | nan, _ => nan
  | _, nan => nan
  | fin x, fin y =>
      if y = 0 then (if 0 < x then inf else if x < 0 then ninf else nan)
      else fin (x / y)
  | fin _, inf => fin 0
  | fin _, ninf => fin 0
  | inf, fin y => if 0 ≤ y then inf else ninf
  | ninf, fin y => if 0 ≤ y then ninf else inf
  | inf, inf => nan
  | inf, ninf => nan
  | ninf, inf => nan
  | ninf, ninf => nan

/-- IEEE comparison `a < c` against a finite constant; NaN compares false. -/
def ltc (a : EFl α) (c : α) : Bool :=
  match a with
  | fin x => decide (x < c)
  | ninf => true
  | inf => false
  | nan => false

/-- IEEE comparison `a > c` against a finite constant; NaN compares false. -/
def gtc (a : EFl α) (c : α) : Bool :=
  match a with
  | fin x => decide (c < x)
  | inf => true
  | ninf => false
  | nan => false

end EFl

/-- One daily OHLCV bar as used by the source (only the High, Low, Close
and Volume columns are read); downloaded values are finite. -/
structure Bar (α : Type) where
  high : α
  low : α
  close : α
  volume : α
deriving DecidableEq

/-- Result of `yf.download` as seen by `analyze_single_stock`: a
(possibly empty) series of daily bars, or a raised provider error
(caught by the surrounding `except`). -/
inductive FetchResult (α : Type) where
  | ok : List (Bar α) → FetchResult α
  | err : FetchResult α
deriving DecidableEq

/-- Did the fetch come back with an empty series (`stock_data.empty`)? -/
def FetchResult.isEmptySeries {α : Type} : FetchResult α → Bool
  | .ok [] => true
  | _ => false

/-- Did the fetch raise (land in the `except` branch)? -/
def FetchResult.isErr {α : Type} : FetchResult α → Bool
  | .err => true
  | _ => false

/-- The four values of the source's `Risk Level` column. -/
inductive Risk where
  | low
  | medium
  | high
  | error
deriving DecidableEq

/-- The result dictionary built by `analyze_single_stock`; `none` models
Python `None`. -/
structure Row (α : Type) where
  symbol : List Char
  avgVolume : Option (EFl α)
  avgDollarVolume : Option (EFl α)
  avgSpread : Option (EFl α)
  score : Option (EFl α)
  riskLevel : Risk
  latestPrice : Option α
deriving DecidableEq

variable {α : Type} [LinearOrderedField α]

/-- Arithmetic mean of a list of finite values (`Series.mean` on an
all-finite column; only applied to non-empty series). -/
def mean (xs : List α) : α := xs.sum / (xs.length : α)

/-- IEEE sum of a list of extended values. -/
def sumE (xs : List (EFl α)) : EFl α := xs.foldl EFl.add (EFl.fin 0)

/-- `Series.mean` with pandas' default `skipna=True`: NaN entries are
dropped; the mean of an all-NaN (or empty) column is NaN; infinities
propagate. -/
def meanSkipNa (xs : List (EFl α)) : EFl α :=
  let ys := xs.filter (fun x => !x.isNaN)
  if ys.length = 0 then EFl.nan
  else (sumE ys).div (EFl.fin (ys.length : α))

/-- Line 75 of the source:
`(stock_data['High'] - stock_data['Low']) / stock_data['Close'] * 100`
computed per bar under IEEE semantics. -/
def bidAskSpread (b : Bar α) : EFl α :=
  ((EFl.fin (b.high - b.low)).div (EFl.fin b.close)).mul (EFl.fin 100)

/-- Lines 95-96 of the source:
`'High Risk' if s < 40 else 'Medium Risk' if s < 70 else 'Low Risk'`. -/
def riskOf (score : EFl α) : Risk :=
  if score.ltc 40 then .high else if score.ltc 70 then .medium else .low

/-- The dictionary returned from the `except` branch (lines 100-109):
every numeric entry is `None` and the risk level is `'Error'`. -/
def errorRow (symbol : List Char) : Row α :=
  { symbol := symbol
    avgVolume := none
    avgDollarVolume := none
    avgSpread := none
    score := none
    riskLevel := .error
    latestPrice := none }

/-- The inner `analyze_single_stock` (lines 58-109).  `lg` models
`np.log10` (only ever applied to a positive argument).  An empty series
returns `None`; a raised fetch error returns the error dictionary; the
final close is finite in the data, so the `pd.isna` guard on
`latest_price` never fires. -/
def analyze_single_stock (lg : α → α) (symbol : List Char)
    (fr : FetchResult α) : Option (Row α) :=
  match fr with
  | .err => some (errorRow symbol)
  | .ok [] => none
  | .ok (b :: bs) =>
    let bars := b :: bs
    let avg_volume : α := mean (bars.map (fun x => x.volume))
    let avg_dollar_volume : α := mean (bars.map (fun x => x.close * x.volume))
    let avg_spread : EFl α := meanSkipNa (bars.map bidAskSpread)
    let volume_score : α := if 0 < avg_volume then lg avg_volume / 7 else 0
    let spread_score : EFl α :=
      if avg_spread.gtc 0 then (EFl.fin 1).sub (avg_spread.div (EFl.fin 10))
      else EFl.fin 0
    let liquidity_score : EFl α :=
      (((EFl.fin volume_score).mul (EFl.fin 0.6)).add
        (spread_score.mul (EFl.fin 0.4))).mul (EFl.fin 100)
    some
      { symbol := symbol
        avgVolume := some (EFl.fin avg_volume)
        avgDollarVolume := some (EFl.fin avg_dollar_volume)
        avgSpread := some avg_spread
        score := some liquidity_score
        riskLevel := riskOf liquidity_score
        latestPrice := (bars.getLast?).map (fun x => x.close) }

/-- Line 34 of the source:
`lambda x: x if x.endswith('.NS') else x + '.NS'`
(applied to the symbols of the NIFTY50 sheet); strings are modelled as
character lists. -/
def normalizeSymbol (s : List Char) : List Char :=
  if ['.', 'N', 'S'].isSuffixOf s then s else s ++ ['.', 'N', 'S']

/-- The contiguous batches `l[i:i+bsize]` produced by
`for i in range(0, total, batch_size)` (the source fixes
`batch_size = 10`); `max bsize 1` only shields the degenerate
`bsize = 0` from non-termination. -/
def chunks (bsize : ℕ) : List β → List (List β)
  | [] => []
  | x :: xs =>
      (x :: xs).take (max bsize 1) :: chunks bsize ((x :: xs).drop (max bsize 1))
termination_by l => l.length
decreasing_by simp

/-- One iteration of the batch loop per chunk, starting at index `i`
over `n` total symbols: the batch's futures are joined in submission
order and only truthy results are appended (`if result:
results.append(result)`), then one progress report
`(min (i + batch_size) n, n)` is recorded (lines 121-139). -/
def runAux (f : List Char → Option (Row α)) (bsize n : ℕ) :
    List (List (List Char)) → ℕ → List (Row α) × List (ℕ × ℕ)
  | [], _ => ([], [])
  | batch :: rest, i =>
      let next := runAux f bsize n rest (i + bsize)
      (batch.filterMap f ++ next.1, (min (i + bsize) n, n) :: next.2)

/-- The whole batched run (lines 112-140): collected results together
with the per-batch progress reports. -/
def schedulerRun (lg : α → α) (fetch : List Char → FetchResult α)
    (symbols : List (List Char)) (bsize : ℕ) :
    List (Row α) × List (ℕ × ℕ) :=
  runAux (fun s => analyze_single_stock lg s (fetch s)) bsize symbols.length
    (chunks bsize symbols) 0

/-- The sort key pandas derives from the `Liquidity Score` column:
`none` for a missing/NaN score (sent to the end by `na_position='last'`),
otherwise the value with `-inf` below every finite value and `inf`
above. -/
inductive Key (α : Type) where
  | kninf : Key α
  | kfin : α → Key α
  | kinf : Key α
deriving DecidableEq

/-- Key extraction from a row's score entry. -/
def keyOf : Option (EFl α) → Option (Key α)
  | some (EFl.fin x) => some (Key.kfin x)
  | some EFl.inf => some Key.kinf
  | some EFl.ninf => some Key.kninf
  | some EFl.nan => none
  | none => none

/-- Strict order on sort keys. -/
def keyLtB : Key α → Key α → Bool
  | Key.kninf, Key.kninf => false
  | Key.kninf, _ => true
  | Key.kfin _, Key.kninf => false
  | Key.kfin x, Key.kfin y => decide (x < y)
  | Key.kfin _, Key.kinf => true
  | Key.kinf, _ => false

/-- Descending comparator on (row, original position) pairs: key
descending, ties by position ascending — the order a stable descending
sort produces.  Null keys (never present in the sorted segment) sort
last so that the comparator is total. -/
def rowGe (a b : Row α × ℕ) : Bool :=
  match keyOf a.1.score, keyOf b.1.score with
  | none, none => decide (a.2 ≤ b.2)
  | none, some _ => false
  | some _, none => true
  | some k1, some k2 =>
      keyLtB k2 k1 || (decide (k1 = k2) && decide (a.2 ≤ b.2))

/-- `results_df.sort_values('Liquidity Score', ascending=False)`
(line 148): pandas' `nargsort` reverses the non-null values and index
array, argsorts ascending, and reverses the indexer again — a stable
descending sort (ties keep encounter order) — then appends the
null-key rows in their original order. -/
def sortValuesDesc (rows : List (Row α)) : List (Row α) :=
  let withIdx : List (Row α × ℕ) := (rows.enum).map (fun p => (p.2, p.1))
  let keyed := withIdx.filter (fun p => (keyOf p.1.score).isSome)
  let nulls := rows.filter (fun r => !(keyOf r.score).isSome)
  (keyed.mergeSort rowGe).map Prod.fst ++ nulls

/-- Lines 142-148: an empty result list aborts the run with an error
message and no report (`if not results: st.error(...); return`);
otherwise the report is the score-sorted result frame. -/
def buildReport (rows : List (Row α)) : Option (List (Row α)) :=
  if rows.isEmpty then none else some (sortValuesDesc rows)

/-- The source's `safe_format` (lines 157-163): `None`/NaN prints as
"N/A"; otherwise the format string (abstracted as `fmt`) is applied. -/
def safe_format (fmt : EFl α → String) (x : Option (EFl α)) : String :=
  match x with
  | none => "N/A"
  | some v => if v.isNaN then "N/A" else fmt v

/-- Rendering of the `Risk Level` column. -/
def riskString : Risk → String
  | .high => "High Risk"
  | .medium => "Medium Risk"
  | .low => "Low Risk"
  | .error => "Error"

/-- One cell of `results_df.to_csv` (line 212): pandas writes `None` and
NaN as an empty field (default `na_rep=''`), infinities as "inf" /
"-inf", and a finite value through the float renderer `render`. -/
def csvCell (render : α → String) (x : Option (EFl α)) : String :=
  match x with
  | none => ""
  | some (EFl.fin v) => render v
  | some EFl.inf => "inf"
  | some EFl.ninf => "-inf"
  | some EFl.nan => ""

/-- One CSV line of the download (columns in frame order). -/
def csvRow (render : α → String) (r : Row α) : List String :=
  [ String.mk r.symbol
  , csvCell render r.avgVolume
  , csvCell render r.avgDollarVolume
  , csvCell render r.avgSpread
  , csvCell render r.score
  , riskString r.riskLevel
  , csvCell render (r.latestPrice.map EFl.fin) ]

/-- One displayed table line (lines 165-169): the five numeric columns
go through `safe_format` with their respective format strings. -/
def displayRow (fmtVol fmtDol fmtSpr fmtScr fmtPrc : EFl α → String)
    (r : Row α) : List String :=
  [ String.mk r.symbol
  , safe_format fmtVol r.avgVolume
  , safe_format fmtDol r.avgDollarVolume
  , safe_format fmtSpr r.avgSpread
  , safe_format fmtScr r.score
  , riskString r.riskLevel
  , safe_format fmtPrc (r.latestPrice.map EFl.fin) ]

/-- A sample fetch assignment for concrete evaluations: symbol "A" yields
one valid bar, symbol "B" an empty series, anything else raises. -/
def sampleFetch (s : List Char) : FetchResult ℚ :=
  if s = ['A'] then FetchResult.ok [⟨2, 1, 1, 100⟩]
  else if s = ['B'] then FetchResult.ok []
  else FetchResult.err

/-! Basic reduction lemmas for the extended-value arithmetic. -/

@[simp] theorem EFl.isNaN_fin (x : α) : (EFl.fin x).isNaN = false := rfl

@[simp] theorem EFl.add_fin (x y : α) :
    (EFl.fin x).add (EFl.fin y) = EFl.fin (x + y) := rfl

@[simp] theorem EFl.mul_fin (x y : α) :
    (EFl.fin x).mul (EFl.fin y) = EFl.fin (x * y) := rfl

@[simp] theorem EFl.sub_fin (x y : α) :
    (EFl.fin x).sub (EFl.fin y) = EFl.fin (x + -y) := rfl

theorem EFl.div_fin (x y : α) (hy : y ≠ 0) :
    (EFl.fin x).div (EFl.fin y) = EFl.fin (x / y) := by
  simp [EFl.div, hy]

@[simp] theorem EFl.gtc_fin (x c : α) :
    (EFl.fin x).gtc c = decide (c < x) := rfl

@[simp] theorem EFl.ltc_fin (x c : α) :
    (EFl.fin x).ltc c = decide (x < c) := rfl

theorem sumE_map_fin_aux (xs : List α) :
    ∀ a : α, (xs.map EFl.fin).foldl EFl.add (EFl.fin a) = EFl.fin (a + xs.sum) := by
  induction xs with
  | nil => intro a; simp
  | cons x xs ih => intro a; simp [ih, add_assoc]

theorem sumE_map_fin (xs : List α) : sumE (xs.map EFl.fin) = EFl.fin xs.sum := by
  simpa using sumE_map_fin_aux xs 0

theorem meanSkipNa_map_fin (xs : List α) (h : xs ≠ []) :
    meanSkipNa (xs.map EFl.fin) = EFl.fin (mean xs) := by
  have hfilter : (xs.map EFl.fin).filter (fun x => !x.isNaN) = xs.map EFl.fin := by
    rw [List.filter_map]
    simp [Function.comp_def]
  have hlen : xs.length ≠ 0 := fun hl => h (List.length_eq_zero.mp hl)
  have hlen' : ((xs.length : α)) ≠ 0 := by exact_mod_cast hlen
  simp only [meanSkipNa, hfilter, List.length_map, sumE_map_fin, hlen, if_false,
    EFl.div_fin _ _ hlen']
  rfl

theorem bidAskSpread_fin (b : Bar α) (h : b.close ≠ 0) :
    bidAskSpread b = EFl.fin ((b.high - b.low) / b.close * 100) := by
  simp [bidAskSpread, EFl.div_fin _ _ h]

theorem riskOf_ne_error (s : EFl α) : riskOf s ≠ Risk.error := by
  unfold riskOf
  split <;> [skip; split] <;> simp

/-! The batch loop. -/

theorem chunks_ne_nil (bsize : ℕ) (x : β) (xs : List β) :
    chunks bsize (x :: xs) ≠ [] := by
  rw [chunks]
  simp

theorem chunks_flatten (bsize : ℕ) (l : List β) :
    (chunks bsize l).flatten = l := by
  induction l using chunks.induct bsize with
  | case1 => simp [chunks]
  | case2 x xs ih =>
    rw [chunks]
    simp only [List.flatten_cons, ih]
    exact List.take_append_drop _ _

theorem length_le_mul_length_chunks (bsize : ℕ) (hb : 0 < bsize) (l : List β) :
    l.length ≤ bsize * (chunks bsize l).length := by
  have hmax : max bsize 1 = bsize := Nat.max_eq_left hb
  induction l using chunks.induct bsize with
  | case1 => simp [chunks]
  | case2 x xs ih =>
    rw [chunks]
    simp only [List.length_cons, List.length_drop, hmax] at ih ⊢
    rw [Nat.mul_succ]
    omega

theorem runAux_fst (f : List Char → Option (Row α)) (bsize n : ℕ)
    (bs : List (List (List Char))) (i : ℕ) :
    (runAux f bsize n bs i).1 = bs.flatten.filterMap f := by
  induction bs generalizing i with
  | nil => simp [runAux]
  | cons batch rest ih => simp [runAux, ih]

theorem schedulerRun_fst (lg : α → α) (fetch : List Char → FetchResult α)
    (symbols : List (List Char)) (bsize : ℕ) :
    (schedulerRun lg fetch symbols bsize).1 =
      symbols.filterMap (fun s => analyze_single_stock lg s (fetch s)) := by
  rw [schedulerRun, runAux_fst, chunks_flatten bsize]

theorem runAux_snd_length (f : List Char → Option (Row α)) (bsize n : ℕ)
    (bs : List (List (List Char))) (i : ℕ) :
    (runAux f bsize n bs i).2.length = bs.length := by
  induction bs generalizing i with
  | nil => simp [runAux]
  | cons batch rest ih => simp [runAux, ih]

theorem runAux_snd_total (f : List Char → Option (Row α)) (bsize n : ℕ)
    (bs : List (List (List Char))) (i : ℕ) :
    ∀ p ∈ (runAux f bsize n bs i).2, p.2 = n := by
  induction bs generalizing i with
  | nil => simp [runAux]
  | cons batch rest ih =>
    intro p hp
    simp only [runAux, List.mem_cons] at hp
    rcases hp with h | h
    · rw [h]
    · exact ih (i + bsize) p h

theorem runAux_snd_lb (f : List Char → Option (Row α)) (bsize n : ℕ)
    (bs : List (List (List Char))) (i : ℕ) :
    ∀ p ∈ (runAux f bsize n bs i).2, min (i + bsize) n ≤ p.1 := by
  induction bs generalizing i with
  | nil => simp [runAux]
  | cons batch rest ih =>
    intro p hp
    simp only [runAux, List.mem_cons] at hp
    rcases hp with h | h
    · rw [h]
    · exact le_trans (by omega) (ih (i + bsize) p h)

theorem runAux_snd_mono (f : List Char → Option (Row α)) (bsize n : ℕ)
    (bs : List (List (List Char))) (i : ℕ) :
    (runAux f bsize n bs i).2.Pairwise (fun p q => p.1 ≤ q.1) := by
  induction bs generalizing i with
  | nil => simp [runAux]
  | cons batch rest ih =>
    simp only [runAux]
    refine List.Pairwise.cons ?_ (ih (i + bsize))
    intro q hq
    exact le_trans (by omega) (runAux_snd_lb f bsize n rest (i + bsize) q hq)

theorem runAux_snd_last (f : List Char → Option (Row α)) (bsize n : ℕ) :
    ∀ (bs : List (List (List Char))) (i : ℕ), bs ≠ [] →
      n ≤ i + bsize * bs.length →
      (runAux f bsize n bs i).2.getLast? = some (n, n) := by
  intro bs
  induction bs with
  | nil => intro i h; exact absurd rfl h
  | cons batch rest ih =>
    intro i _ hcover
    match hrest : rest with
    | [] =>
      simp only [runAux, hrest]
      simp only [List.length_cons, List.length_nil, Nat.mul_succ, Nat.mul_zero,
        Nat.zero_add] at hcover
      simp [runAux, Nat.min_eq_right, show min (i + bsize) n = n by omega]
    | r :: rs =>
      have hc : n ≤ (i + bsize) + bsize * (r :: rs).length := by
        simp only [List.length_cons] at hcover ⊢
        rw [Nat.mul_succ] at hcover
        omega
      have hrec := ih (i + bsize) (by simp) hc
      simp only [runAux] at hrec ⊢
      rw [List.getLast?_cons_cons]
      exact hrec

/-! The report sort. -/

theorem enumFrom_swap_filter (q : Row α → Bool) (rows : List (Row α)) :
    ∀ n : ℕ,
      ((((List.enumFrom n rows).map (fun p => (p.2, p.1))).filter
          (fun p => q p.1)).map Prod.fst) = rows.filter q := by
  induction rows with
  | nil => intro n; simp
  | cons r rs ih =>
    intro n
    simp only [List.enumFrom_cons, List.map_cons, List.filter_cons]
    by_cases hq : q r
    · simp [hq, ih (n + 1)]
    · simp [hq, ih (n + 1)]

theorem sortValuesDesc_perm (rows : List (Row α)) :
    List.Perm (sortValuesDesc rows) rows := by
  unfold sortValuesDesc
  simp only [List.enum]
  refine List.Perm.trans ?_
    (List.filter_append_perm (fun r => (keyOf r.score).isSome) rows)
  refine List.Perm.append_right _ ?_
  rw [← enumFrom_swap_filter (fun r => (keyOf r.score).isSome) rows 0]
  exact List.Perm.map Prod.fst (List.mergeSort_perm _ _)

theorem analyze_isSome (lg : α → α) (s : List Char) (fr : FetchResult α) :
    (analyze_single_stock lg s fr).isSome = !fr.isEmptySeries := by
  cases fr with
  | err => rfl
  | ok bars => cases bars <;> rfl

theorem analyze_error_iff (lg : α → α) (s : List Char) (fr : FetchResult α) :
    ((analyze_single_stock lg s fr).map
        (fun r => decide (r.riskLevel = Risk.error))).getD false = fr.isErr := by
  cases fr with
  | err => simp [analyze_single_stock, errorRow, FetchResult.isErr]
  | ok bars =>
    cases bars with
    | nil => rfl
    | cons b bs =>
      simp [analyze_single_stock, FetchResult.isErr, riskOf_ne_error]

theorem countP_not_add_countP (p : β → Bool) (l : List β) :
    l.countP (fun a => !p a) + l.countP p = l.length := by
  induction l with
  | nil => rfl
  | cons x xs ih =>
    rw [List.countP_cons, List.countP_cons, List.length_cons]
    cases h : p x <;> simp [h] <;> omega

/-! Claim theorems. -/

/-- Claim C1, counterexample: a single ticker whose fetch returns an
empty series is dropped from the results (`return None` plus
`if result:`), so a run over one ticker yields zero outcomes, not one. -/
theorem c1_counterexample :
    (schedulerRun (fun x : ℚ => x) (fun _ => FetchResult.ok []) [ ['A'] ] 10).1.length
      ≠ [ ['A'] ].length := by
  simp [schedulerRun, chunks, runAux, analyze_single_stock]

/-- Claim C1 as amended: a run over N tickers yields N − E outcomes,
where E is the number of tickers whose fetch returned an empty series
(those are omitted rather than reported as a distinct Empty outcome),
and exactly K outcomes tagged with risk level Error when K fetches
raise; the run is a total function of its inputs, so it completes for
every K. -/
theorem c1_scheduler_outcome_counts (lg : α → α)
    (fetch : List Char → FetchResult α) (syms : List (List Char))
    (bsize : ℕ) (hb : 0 < bsize) :
    (schedulerRun lg fetch syms bsize).1.length
        = syms.length - syms.countP (fun s => (fetch s).isEmptySeries)
    ∧ (schedulerRun lg fetch syms bsize).1.countP
          (fun r => decide (r.riskLevel = Risk.error))
        = syms.countP (fun s => (fetch s).isErr) := by
  rw [schedulerRun_fst]
  constructor
  · rw [List.length_filterMap_eq_countP]
    have hcong : ∀ s ∈ syms,
        ((analyze_single_stock lg s (fetch s)).isSome = true)
          ↔ ((!(fetch s).isEmptySeries) = true) := by
      intro s _
      rw [analyze_isSome]
    rw [List.countP_congr hcong]
    have hadd := countP_not_add_countP (fun s => (fetch s).isEmptySeries) syms
    omega
  · rw [List.countP_filterMap]
    apply List.countP_congr
    intro s _
    rw [analyze_error_iff]

/-- Witness for C1: three tickers, batch size 2; "A" succeeds, "B" is
empty (and omitted), "C" raises: two outcomes, one of them Error. -/
theorem c1_scheduler_outcome_counts_witness :
    (schedulerRun (fun x : ℚ => x) sampleFetch [ ['A'], ['B'], ['C'] ] 2).1.length = 2
    ∧ (schedulerRun (fun x : ℚ => x) sampleFetch [ ['A'], ['B'], ['C'] ] 2).1.countP
        (fun r => decide (r.riskLevel = Risk.error)) = 1 := by
  have h := c1_scheduler_outcome_counts (fun x : ℚ => x) sampleFetch
    [ ['A'], ['B'], ['C'] ] 2 (by norm_num)
  refine ⟨?_, ?_⟩
  · rw [h.1]; decide
  · rw [h.2]; decide

/-- Claim C2: the code evaluated at a series containing a bar with
close = 0 (and high > low).  The spread becomes +∞, the spread score
−∞, and the returned outcome is a fully populated success-shaped row
with score −∞ and risk level High — not a Failure/Error outcome as the
claim requires.  This is the code bug the claim describes. -/
theorem c2_zero_close_emits_infinite_score :
    analyze_single_stock (fun x : ℚ => x) ['A']
        (FetchResult.ok [ ⟨2, 1, 0, 100⟩ ])
      = some { symbol := ['A']
               avgVolume := some (EFl.fin 100)
               avgDollarVolume := some (EFl.fin 0)
               avgSpread := some EFl.inf
               score := some EFl.ninf
               riskLevel := Risk.high
               latestPrice := some 0 } := by
  norm_num [analyze_single_stock, mean, meanSkipNa, sumE, bidAskSpread, riskOf,
    EFl.div, EFl.mul, EFl.add, EFl.sub, EFl.neg, EFl.gtc, EFl.ltc, EFl.isNaN]

/-- Claim C3, counterexample: on an empty outcome list the code aborts
with `st.error` and returns no report (`if not results: ... return`),
so report building is not total. -/
theorem c3_counterexample : buildReport ([] : List (Row ℚ)) = none := rfl

/-- Claim C3 as amended: for every non-empty outcome list — including
lists containing only Failure rows — the caller receives a report
containing exactly the collected outcomes; only the empty list aborts
the run with an error message instead of a report. -/
theorem c3_report_total_on_nonempty (rows : List (Row α)) (h : rows ≠ []) :
    ∃ rep, buildReport rows = some rep ∧ List.Perm rep rows := by
  have hne : rows.isEmpty = false := by
    cases rows with
    | nil => exact absurd rfl h
    | cons r rs => rfl
  exact ⟨sortValuesDesc rows, by simp [buildReport, hne], sortValuesDesc_perm rows⟩

/-- Witness for C3: a report is produced for a list holding a single
Failure row. -/
theorem c3_report_total_on_nonempty_witness :
    ∃ rep, buildReport [ (errorRow ['A'] : Row ℚ) ] = some rep
      ∧ List.Perm rep [ (errorRow ['A'] : Row ℚ) ] :=
  c3_report_total_on_nonempty [ (errorRow ['A'] : Row ℚ) ] (by simp)

/-- The score entry produced for a non-empty series, read off the
definition of `analyze_single_stock`. -/
theorem analyze_score_cons (lg : α → α) (sym : List Char) (b : Bar α)
    (bs : List (Bar α)) :
    ∃ r, analyze_single_stock lg sym (FetchResult.ok (b :: bs)) = some r
      ∧ r.score = some
        ((((EFl.fin (if 0 < mean ((b :: bs).map (fun x => x.volume)) then
              lg (mean ((b :: bs).map (fun x => x.volume))) / 7 else 0)).mul
            (EFl.fin 0.6)).add
          ((if (meanSkipNa ((b :: bs).map bidAskSpread)).gtc 0 then
              (EFl.fin 1).sub
                ((meanSkipNa ((b :: bs).map bidAskSpread)).div (EFl.fin 10))
            else EFl.fin 0).mul (EFl.fin 0.4))).mul (EFl.fin 100)) :=
  ⟨_, rfl, rfl⟩

/-- Claim C5: for every non-empty series whose bars all have a nonzero
close (so that all metrics stay finite), the emitted score is exactly
(volumeScore × 0.6 + spreadScore × 0.4) × 100, with
volumeScore = log10(avgVolume)/7 when avgVolume > 0 and 0 otherwise,
and spreadScore = 1 − avgSpreadPct/10 when avgSpreadPct > 0 and 0
otherwise — no clamping of the final value to the 0–100 band (the
witness exhibits a score of 120). -/
theorem c5_score_formula (bars : List (Bar ℝ)) (sym : List Char)
    (hne : bars ≠ []) (hcl : ∀ b ∈ bars, b.close ≠ 0) :
    ∃ r : Row ℝ,
      analyze_single_stock (fun x => Real.logb 10 x) sym (FetchResult.ok bars)
          = some r
      ∧ r.score = some (EFl.fin
          (((if 0 < mean (bars.map (fun x => x.volume)) then
               Real.logb 10 (mean (bars.map (fun x => x.volume))) / 7 else 0) * 0.6
            + (if 0 < mean (bars.map (fun x => (x.high - x.low) / x.close * 100)) then
                 1 - mean (bars.map (fun x => (x.high - x.low) / x.close * 100)) / 10
               else 0) * 0.4) * 100)) := by
  cases bars with
  | nil => exact absurd rfl hne
  | cons b bs =>
    obtain ⟨r, hr, hs⟩ :=
      analyze_score_cons (fun x => Real.logb 10 x) sym b bs
    refine ⟨r, hr, ?_⟩
    rw [hs]
    have hspread : meanSkipNa ((b :: bs).map bidAskSpread)
        = EFl.fin (mean ((b :: bs).map (fun x => (x.high - x.low) / x.close * 100))) := by
      have hmap : (b :: bs).map bidAskSpread
          = ((b :: bs).map (fun x => (x.high - x.low) / x.close * 100)).map EFl.fin := by
        rw [List.map_map]
        exact List.map_congr_left (fun x hx => bidAskSpread_fin x (hcl x hx))
      rw [hmap]
      exact meanSkipNa_map_fin _ (by simp)
    rw [hspread]
    have h10 : (10 : ℝ) ≠ 0 := by norm_num
    by_cases hm : 0 < mean ((b :: bs).map (fun x => (x.high - x.low) / x.close * 100))
    · simp only [EFl.gtc_fin, hm, decide_True, if_true, EFl.div_fin _ _ h10,
        EFl.sub_fin, EFl.mul_fin, EFl.add_fin, if_pos hm]
      rw [sub_eq_add_neg]
    · simp only [EFl.gtc_fin, hm, decide_False, Bool.false_eq_true, if_false,
        EFl.mul_fin, EFl.add_fin, if_neg hm]

/-- Witness for C5: a single bar with high = low = close = 1 and volume
10^14 gives average volume 10^14, average spread 0, and score
(log10(10^14)/7 × 0.6 + 0 × 0.4) × 100 = 120 — above the documented
0–100 band, confirming the absence of clamping. -/
theorem c5_score_formula_witness :
    ∃ r : Row ℝ,
      analyze_single_stock (fun x => Real.logb 10 x) ['A']
          (FetchResult.ok [ ⟨1, 1, 1, 100000000000000⟩ ]) = some r
      ∧ r.score = some (EFl.fin 120) := by
  obtain ⟨r, hr, hs⟩ :=
    c5_score_formula [ ⟨1, 1, 1, 100000000000000⟩ ] ['A'] (by simp)
      (by
        intro x hx
        rw [List.mem_singleton] at hx
        subst hx
        norm_num)
  refine ⟨r, hr, ?_⟩
  rw [hs]
  have hv : mean ([ (⟨1, 1, 1, 100000000000000⟩ : Bar ℝ) ].map (fun x => x.volume))
      = (100000000000000 : ℝ) := by
    simp [mean]
  have hsp : mean ([ (⟨1, 1, 1, 100000000000000⟩ : Bar ℝ) ].map
      (fun x => (x.high - x.low) / x.close * 100)) = (0 : ℝ) := by
    simp [mean]
  rw [hv, hsp]
  have hlog : Real.logb 10 (100000000000000 : ℝ) = 14 := by
    rw [show (100000000000000 : ℝ) = 10 ^ (14 : ℕ) by norm_num]
    rw [Real.logb_pow]
    rw [Real.logb_self_eq_one (by norm_num)]
    norm_num
  rw [if_pos (by norm_num : (0 : ℝ) < 100000000000000), hlog]
  norm_num

/-- Claim C6: the risk bands of lines 95-96 — High below 40, Medium
from 40 up to but excluding 70, Low from 70 up, each band inclusive on
its lower bound. -/
theorem c6_risk_thresholds (x : α) :
    (70 ≤ x → riskOf (EFl.fin x) = Risk.low)
    ∧ (40 ≤ x → x < 70 → riskOf (EFl.fin x) = Risk.medium)
    ∧ (x < 40 → riskOf (EFl.fin x) = Risk.high) := by
  refine ⟨?_, ?_, ?_⟩
  · intro h
    have h1 : ¬x < 40 := by linarith
    have h2 : ¬x < 70 := by linarith
    simp [riskOf, EFl.ltc, h1, h2]
  · intro h1 h2
    have h3 : ¬x < 40 := not_lt.mpr h1
    simp [riskOf, EFl.ltc, h3, h2]
  · intro h
    simp [riskOf, EFl.ltc, h]

/-- Witness for C6 at the claim's boundary scores: 70 → Low,
69.999 → Medium, 40 → Medium, 39.999 → High. -/
theorem c6_risk_thresholds_witness :
    riskOf (EFl.fin (70 : ℚ)) = Risk.low
    ∧ riskOf (EFl.fin (69.999 : ℚ)) = Risk.medium
    ∧ riskOf (EFl.fin (40 : ℚ)) = Risk.medium
    ∧ riskOf (EFl.fin (39.999 : ℚ)) = Risk.high :=
  ⟨(c6_risk_thresholds 70).1 (by norm_num),
   (c6_risk_thresholds (69.999 : ℚ)).2.1 (by norm_num) (by norm_num),
   (c6_risk_thresholds 40).2.1 (by norm_num) (by norm_num),
   (c6_risk_thresholds (39.999 : ℚ)).2.2 (by norm_num)⟩

/-- Claim C7: one progress report per batch (as many reports as there
are batches), every report carries total = N, the completed counts are
monotonically non-decreasing, and — whenever there is at least one
ticker — the final report is (N, N). -/
theorem c7_progress_reports (lg : α → α) (fetch : List Char → FetchResult α)
    (syms : List (List Char)) (bsize : ℕ) (hb : 0 < bsize) :
    (schedulerRun lg fetch syms bsize).2.length = (chunks bsize syms).length
    ∧ (∀ p ∈ (schedulerRun lg fetch syms bsize).2, p.2 = syms.length)
    ∧ (schedulerRun lg fetch syms bsize).2.Pairwise (fun p q => p.1 ≤ q.1)
    ∧ (syms ≠ [] →
        (schedulerRun lg fetch syms bsize).2.getLast?
          = some (syms.length, syms.length)) := by
  refine ⟨runAux_snd_length _ _ _ _ _, runAux_snd_total _ _ _ _ _,
    runAux_snd_mono _ _ _ _ _, ?_⟩
  intro hne
  apply runAux_snd_last
  · cases syms with
    | nil => exact absurd rfl hne
    | cons x xs => exact chunks_ne_nil bsize x xs
  · simpa using length_le_mul_length_chunks bsize hb syms

/-- Witness for C7: three tickers in batches of two give two reports,
(2, 3) then (3, 3). -/
theorem c7_progress_reports_witness :
    (schedulerRun (fun x : ℚ => x) sampleFetch [ ['A'], ['B'], ['C'] ] 2).2.length
        = (chunks 2 [ ['A'], ['B'], ['C'] ]).length
    ∧ (∀ p ∈ (schedulerRun (fun x : ℚ => x) sampleFetch [ ['A'], ['B'], ['C'] ] 2).2,
        p.2 = [ ['A'], ['B'], ['C'] ].length)
    ∧ (schedulerRun (fun x : ℚ => x) sampleFetch [ ['A'], ['B'], ['C'] ] 2).2.Pairwise
        (fun p q => p.1 ≤ q.1)
    ∧ (schedulerRun (fun x : ℚ => x) sampleFetch [ ['A'], ['B'], ['C'] ] 2).2.getLast?
        = some ([ ['A'], ['B'], ['C'] ].length, [ ['A'], ['B'], ['C'] ].length) := by
  have h := c7_progress_reports (fun x : ℚ => x) sampleFetch
    [ ['A'], ['B'], ['C'] ] 2 (by norm_num)
  exact ⟨h.1, h.2.1, h.2.2.1, h.2.2.2 (by simp)⟩

/-- Claim C8: the exchange-suffix normalization of line 34 is
idempotent — once ".NS" has been appended, the string ends with ".NS"
and a second application changes nothing. -/
theorem c8_normalize_idempotent (s : List Char) :
    normalizeSymbol (normalizeSymbol s) = normalizeSymbol s := by
  by_cases h : (['.', 'N', 'S'] : List Char).isSuffixOf s
  · simp [normalizeSymbol, h]
  · have h2 : (['.', 'N', 'S'] : List Char).isSuffixOf (s ++ ['.', 'N', 'S']) = true := by
      rw [List.isSuffixOf_iff_suffix]
      exact List.suffix_append s _
    simp [normalizeSymbol, h, h2]

/-- Claim C9, counterexample: the CSV download serializes `results_df`,
the unformatted frame (line 212), so every numeric field of a Failure
row is written as an empty field, not as the "N/A" marker. -/
theorem c9_counterexample :
    csvRow (fun x : ℚ => toString x) (errorRow ['A'])
        = [ "A", "", "", "", "", "Error", "" ]
    ∧ ("" : String) ≠ "N/A" := by
  constructor
  · decide
  · decide

/-- Claim C9 as amended: only the displayed table writes the explicit
"N/A" marker for the numeric fields of a non-Success row (via
`safe_format`); the exported CSV writes those fields as empty strings,
never as "N/A" and never as zero. -/
theorem c9_non_success_serialization (render : α → String)
    (fmtVol fmtDol fmtSpr fmtScr fmtPrc : EFl α → String) (sym : List Char) :
    csvRow render (errorRow sym)
        = [ String.mk sym, "", "", "", "", "Error", "" ]
    ∧ displayRow fmtVol fmtDol fmtSpr fmtScr fmtPrc (errorRow sym)
        = [ String.mk sym, "N/A", "N/A", "N/A", "N/A", "Error", "N/A" ] := by
  constructor
  · rfl
  · rfl

/-- Claim C10: the scheduler joins each batch's futures in submission
order and appends retained results in that order, so for every ticker
list, every fetch assignment and every positive batch size the
collected sequence equals a single in-order filtered pass over the
input list — original input order is preserved across and within
batches. -/
theorem c10_collection_preserves_input_order (lg : α → α)
    (fetch : List Char → FetchResult α) (syms : List (List Char))
    (bsize : ℕ) (hb : 0 < bsize) :
    (schedulerRun lg fetch syms bsize).1
      = syms.filterMap (fun s => analyze_single_stock lg s (fetch s)) :=
  schedulerRun_fst lg fetch syms bsize

/-- Witness for C10 at three tickers and batch size 2. -/
theorem c10_collection_preserves_input_order_witness :
    (schedulerRun (fun x : ℚ => x) sampleFetch [ ['A'], ['B'], ['C'] ] 2).1
      = [ ['A'], ['B'], ['C'] ].filterMap
          (fun s => analyze_single_stock (fun x : ℚ => x) s (sampleFetch s)) :=
  c10_collection_preserves_input_order (fun x : ℚ => x) sampleFetch
    [ ['A'], ['B'], ['C'] ] 2 (by norm_num)

end LiquidityAnalyzer
